import Mathlib

/-!
Verification of the mongothon schema engine (mongothon/schema.py) against its
natural-language specification.  The Python 2 source is shallowly embedded:
Python runtime values become the inductive `Value`, the supported type registry
(`SUPPORTED_TYPES`) becomes `PType`, schema declarations become the mutual
inductive family `Spec` / `FieldSpec` / `FieldType` / `CollElem`, and the three
recursive walks (`_verify_schema`, `_validate_instance_against_schema`,
`_apply_schema_defaults`) become recursive Lean functions returning `Except`
values, with Python exceptions modelled explicitly.
-/

namespace Mongothon

/-- A Python runtime value, as far as the schema engine observes it.
Floats and datetimes are opaque to the engine (only `isinstance` checks touch
them), so they carry an uninterpreted payload. -/
inductive Value : Type where
  | none : Value
  | bool : Bool → Value
  | int : Int → Value
  | long : Int → Value
  | float : Int → Value
  | str : String → Value
  | dt : Nat → Value
  | list : List Value → Value
  | doc : List (String × Value) → Value
  deriving Repr

/-- The members of `SUPPORTED_TYPES = [basestring, int, float, datetime, long,
bool, Mixed]`.  `mixedCls` is the `Mixed` class itself, which the source allows
as a field type. -/
inductive PType : Type where
  | basestring : PType
  | int : PType
  | float : PType
  | datetime : PType
  | long : PType
  | bool : PType
  | mixedCls : PType
  deriving Repr, DecidableEq

/-- Python `isinstance(value, t)` for the supported types, with Python 2
semantics: `bool` is a subclass of `int`, `int` and `long` are distinct types,
`basestring` covers strings, and no engine-visible value is an instance of the
`Mixed` class. -/
def isInst : Value → PType → Bool
  | .str _, .basestring => true
  | .int _, .int => true
  | .bool _, .int => true
  | .bool _, .bool => true
  | .long _, .long => true
  | .float _, .float => true
  | .dt _, .datetime => true
  | _, _ => false

/-- Python truthiness of a value (`if value:`). -/
def truthy : Value → Bool
  | .none => false
  | .bool b => b
  | .int n => n != 0
  | .long n => n != 0
  | .float q => q != 0
  | .str s => s ≠ ""
  | .dt _ => true
  | .list l => !l.isEmpty
  | .doc d => !d.isEmpty

/-- A Python exception other than the two domain exception classes. -/
inductive PyErr : Type where
  | typeError : PyErr
  | keyError : String → PyErr
  | indexError : PyErr
  | attributeError : String → PyErr
  | valueError : String → PyErr
  deriving Repr, DecidableEq

/-- A custom validator as stored under the `validates` key: either a Python
function of the given arity (pure: its behaviour is the returned value), or a
non-function object (`vjunk`). -/
inductive ValidatorDecl : Type where
  | vfunc : Nat → (Value → Value) → ValidatorDecl
  | vjunk : ValidatorDecl

/-- The value of the `validates` key: a single validator or a list of them. -/
inductive ValidatesDecl : Type where
  | vsingle : ValidatorDecl → ValidatesDecl
  | vlist : List ValidatorDecl → ValidatesDecl

/-- The value of the `default` key: a literal value, or a Python function of
the given arity returning the given value (side-effect-free generator). -/
inductive DefaultDecl : Type where
  | dlit : Value → DefaultDecl
  | dfunc : Nat → Value → DefaultDecl

mutual
/-- A field type: a supported primitive (including the `Mixed` class itself),
a `Mixed(...)` instance enclosing a list of supported types, a nested `Schema`
(its `doc_spec`), or an unsupported object (`junkT`). -/
inductive FieldType : Type where
  | prim : PType → FieldType
  | mixedInst : List PType → FieldType
  | nested : List (String × Spec) → FieldType
  | junkT : FieldType

/-- A dict-based field spec: the recognized keys `type`, `required`,
`validates`, `default` (each `Option`: `Option.none` means the key is absent)
plus any unrecognized keys (names only; disjoint from the four above). -/
inductive FieldSpec : Type where
  | mk : Option FieldType → Option Value → Option ValidatesDecl →
      Option DefaultDecl → List String → FieldSpec

/-- An element of an embedded-collection (list) spec: a `Schema` (its
`doc_spec`), a supported type, or anything else. -/
inductive CollElem : Type where
  | cschema : List (String × Spec) → CollElem
  | cptype : PType → CollElem
  | cjunk : CollElem

/-- The spec attached to one field name in a `doc_spec`: a dict-based field
spec, an embedded-collection list (of any length), or any other object. -/
inductive Spec : Type where
  | field : FieldSpec → Spec
  | coll : List CollElem → Spec
  | other : Spec
end

/-- A `Schema.doc_spec`: field name to spec, in declaration order. -/
abbrev DocSpec := List (String × Spec)

def FieldSpec.type? : FieldSpec → Option FieldType
  | .mk t _ _ _ _ => t

def FieldSpec.required? : FieldSpec → Option Value
  | .mk _ r _ _ _ => r

def FieldSpec.validates? : FieldSpec → Option ValidatesDecl
  | .mk _ _ v _ _ => v

def FieldSpec.default? : FieldSpec → Option DefaultDecl
  | .mk _ _ _ d _ => d

def FieldSpec.extraKeys : FieldSpec → List String
  | .mk _ _ _ _ e => e

/-- `_append_path(prefix, field)`: the empty path is falsy in Python. -/
def appendPath (pfx field : String) : String :=
  if pfx = "" then field else pfx ++ "." ++ field

/-- The error collection built by validation: a Python dict mapping field
paths to the recorded message objects, in insertion order. -/
abbrev Errors := List (String × Value)

/-- Python dict assignment `d[k] = v`: replaces the value at an existing key
in place, otherwise appends the new binding. -/
def dset (d : List (String × Value)) (k : String) (v : Value) :
    List (String × Value) :=
  match d with
  | [] => [(k, v)]
  | (k0, v0) :: rest =>
      if k0 = k then (k, v) :: rest else (k0, v0) :: dset rest k v

/-- Python dict lookup returning the stored value if the key is present. -/
def dfind (d : List (String × Value)) (k : String) : Option Value :=
  match d with
  | [] => Option.none
  | (k0, v0) :: rest => if k0 = k then some v0 else dfind rest k

/-- Python dict membership `k in d`. -/
def dmem (d : List (String × Value)) (k : String) : Bool :=
  match d with
  | [] => false
  | (k0, _) :: rest => k0 = k || dmem rest k

/-- `instance.get(field, None)`: the stored value, or `None` when absent. -/
def dgetD (d : List (String × Value)) (k : String) : Value :=
  match dfind d k with
  | some v => v
  | Option.none => Value.none

/-- Truthiness of `field_spec.get('required', False)`. -/
def reqTruthy : Option Value → Bool
  | some v => truthy v
  | Option.none => false

/-- Rendering of a supported type inside the type-mismatch message
`"Field should be of type {0}".format(field_type)` (Python quote characters
inside the repr are elided). -/
def typeRepr : PType → String
  | .basestring => "<type basestring>"
  | .int => "<type int>"
  | .float => "<type float>"
  | .datetime => "<type datetime.datetime>"
  | .long => "<type long>"
  | .bool => "<type bool>"
  | .mixedCls => "<class Mixed>"

/-- The inner `apply(fn)` of `_validate_value`: call the validator with the
value (a `TypeError` unless it is a unary function) and record a truthy result
at the field path. -/
def applyValidator (vd : ValidatorDecl) (value : Value) (path : String)
    (errs : Errors) : Except PyErr Errors :=
  match vd with
  | .vjunk => .error .typeError
  | .vfunc arity f =>
      if arity = 1 then
        let r := f value
        .ok (if truthy r then dset errs path r else errs)
      else .error .typeError

/-- The `for validation in validations` loop of `_validate_value`. -/
def applyValidatorList (vds : List ValidatorDecl) (value : Value)
    (path : String) (errs : Errors) : Except PyErr Errors :=
  match vds with
  | [] => .ok errs
  | vd :: rest => do
      let errs1 ← applyValidator vd value path errs
      applyValidatorList rest value path errs1

/-- The validations phase of `_validate_value` (everything from
`validations = field_spec.get('validates', None)` on). -/
def runValidations (v? : Option ValidatesDecl) (value : Value) (path : String)
    (errs : Errors) : Except PyErr Errors :=
  match v? with
  | Option.none => .ok errs
  | some (.vsingle vd) => applyValidator vd value path errs
  | some (.vlist vds) => applyValidatorList vds value path errs

mutual
/-- `_validate_value(value, field_spec, path, errors)`. -/
def validateValue (value : Value) (fs : FieldSpec) (path : String)
    (errs : Errors) : Except PyErr Errors :=
  match fs with
  | .mk t? r? v? _ _ =>
    match value with
    | .none =>
        if reqTruthy r? then
          .ok (dset errs path (.str (path ++ " is required.")))
        else .ok errs
    | v =>
      match t? with
      | Option.none => .error (.keyError "type")
      | some ft =>
        match ft with
        | .nested s =>
            match v with
            | .doc _ => validateInstance v s errs path
            | _ => .ok (dset errs path
                (.str (path ++ " should be an embedded document")))
        | .mixedInst ts =>
            if ts.any (fun t => isInst v t) then runValidations v? v path errs
            else .ok (dset errs path
                (.str "Field should be one of the types specified."))
        | .junkT => .error .typeError
        | .prim pt =>
            if pt = .mixedCls then runValidations v? v path errs
            else if isInst v pt then runValidations v? v path errs
            else .ok (dset errs path
                (.str ("Field should be of type " ++ typeRepr pt)))
termination_by (sizeOf fs, 0)

/-- The body of the field loop of `_validate_instance_against_schema` for one
`(field, spec)` pair. -/
def validateField (f : String) (spec : Spec) (d : List (String × Value))
    (errs : Errors) (pfx : String) : Except PyErr Errors :=
  let value := dgetD d f
  let path := appendPath pfx f
  match spec with
  | .field fs => validateValue value fs path errs
  | .coll elems =>
      match value with
      | .none => .ok errs
      | .list items => validateItems elems items 0 errs path
      | _ => .ok (dset errs path (.str "Expected a list."))
  | .other => .ok errs
termination_by (sizeOf spec, 0)

/-- The `for i, item in enumerate(value)` loop over an embedded collection. -/
def validateItems (elems : List CollElem) (items : List Value) (i : Nat)
    (errs : Errors) (path : String) : Except PyErr Errors :=
  match items with
  | [] => .ok errs
  | it :: rest =>
      match elems with
      | [] => .error .indexError
      | e :: tail =>
        let ipath := path ++ "." ++ toString i
        match e with
        | .cschema s => do
            let errs1 ← validateInstance it s errs ipath
            validateItems (.cschema s :: tail) rest (i + 1) errs1 path
        | .cptype pt =>
            validateItems (.cptype pt :: tail) rest (i + 1)
              (if isInst it pt then errs
               else dset errs ipath (.str "List item is of incorrect type"))
              path
        | .cjunk => .error .typeError
termination_by (sizeOf elems, items.length + 1)

/-- The field loop of `_validate_instance_against_schema`. -/
def validateFields (specs : DocSpec) (d : List (String × Value))
    (errs : Errors) (pfx : String) : Except PyErr Errors :=
  match specs with
  | [] => .ok errs
  | (f, spec) :: rest => do
      let errs1 ← validateField f spec d errs pfx
      validateFields rest d errs1 pfx
termination_by (sizeOf specs, 0)

/-- `_validate_instance_against_schema(instance, schema, errors, path_prefix)`. -/
def validateInstance (inst : Value) (specs : DocSpec) (errs : Errors)
    (pfx : String) : Except PyErr Errors :=
  match inst with
  | .doc d => validateFields specs d errs pfx
  | _ => .ok (dset errs pfx
      (.str "Expected instance of dict to validate against schema."))
termination_by (sizeOf specs, 1)
end

/-- The outcome of `Schema.validate`: a raised Python error, a raised
`ValidationException` carrying the error map, or a normal return. -/
inductive ValidateErr : Type where
  | py : PyErr → ValidateErr
  | validation : Errors → ValidateErr

/-- `Schema.validate(instance)`: run the walk with a fresh error collection
and raise a `ValidationException` carrying it when it is non-empty. -/
def schemaValidate (specs : DocSpec) (inst : Value) : Except ValidateErr Unit :=
  match validateInstance inst specs [] "" with
  | .error e => .error (.py e)
  | .ok errs => if errs.isEmpty then .ok () else .error (.validation errs)

/-- The outcome of schema verification: a `SchemaFormatException` carrying the
formatted message and the offending path, or a `TypeError` escaping the
`isinstance(default, field_type)` check when `field_type` is a `Mixed`
instance. -/
inductive VerifyErr : Type where
  | fmt : String → String → VerifyErr
  | typeErr : VerifyErr
  deriving Repr, DecidableEq

/-- Whether a value is a Python `bool`. -/
def Value.isBool : Value → Bool
  | .bool _ => true
  | _ => false

/-- `spec.keys()` of a field spec, in the fixed order type, required,
validates, default, then unrecognized keys (Python 2 dict order is
unspecified; this choice is only visible inside one error message). -/
def specKeys (t? : Option FieldType) (r? : Option Value)
    (v? : Option ValidatesDecl) (d? : Option DefaultDecl)
    (ex : List String) : List String :=
  (if t?.isSome then ["type"] else []) ++
  (if r?.isSome then ["required"] else []) ++
  (if v?.isSome then ["validates"] else []) ++
  (if d?.isSome then ["default"] else []) ++ ex

/-- Rendering of `repr(spec.keys())` inside the unsupported-item message
(Python quote characters elided). -/
def keysRepr (keys : List String) : String :=
  "[" ++ String.intercalate ", " keys ++ "]"

/-- `_verify_validator(validator, path)`. -/
def verifyValidator (vd : ValidatorDecl) (path : String) :
    Except VerifyErr Unit :=
  match vd with
  | .vjunk => .error (.fmt ("Invalid validations for " ++ path) path)
  | .vfunc a _ =>
      if a = 1 then .ok ()
      else .error (.fmt ("Invalid validations for " ++ path) path)

/-- The `for validator in validates` loop of `_verify_field_spec`. -/
def verifyValidatorList (vds : List ValidatorDecl) (path : String) :
    Except VerifyErr Unit :=
  match vds with
  | [] => .ok ()
  | vd :: rest => do
      verifyValidator vd path
      verifyValidatorList rest path

/-- The `validates` clause of `_verify_field_spec`. -/
def verifyValidations (v? : Option ValidatesDecl) (path : String) :
    Except VerifyErr Unit :=
  match v? with
  | Option.none => .ok ()
  | some (.vsingle vd) => verifyValidator vd path
  | some (.vlist vds) => verifyValidatorList vds path

mutual
/-- `_verify_field_spec(spec, path)`. -/
def verifyFieldSpec (fs : FieldSpec) (path : String) : Except VerifyErr Unit :=
  match fs with
  | .mk t? r? v? d? ex => do
    (match r? with
     | some rv =>
         if rv.isBool then pure ()
         else throw (.fmt (path ++ " required declaration should be True or False") path)
     | Option.none => pure ())
    match t? with
    | Option.none => throw (.fmt (path ++ " has no type declared.") path)
    | some ft =>
      match ft with
      | .nested s =>
          if v?.isSome || d?.isSome || !ex.isEmpty then
            throw (.fmt ("Unsupported field spec item at " ++ path ++
              ". Items: " ++ keysRepr (specKeys t? r? v? d? ex)) path)
          else verifyFields s path
      | .junkT => throw (.fmt (path ++ " is not declared with a valid type.") path)
      | .prim pt => do
          verifyValidations v? path
          (match d? with
           | Option.none => pure ()
           | some (.dfunc _ _) => pure ()
           | some (.dlit v) =>
               if isInst v pt then pure ()
               else throw (.fmt ("Default value for " ++ path ++
                 " is not of the nominated type.") path))
          if ex.isEmpty then pure ()
          else throw (.fmt ("Unsupported field spec item at " ++ path ++
            ". Items: " ++ keysRepr (specKeys t? r? v? d? ex)) path)
      | .mixedInst _ => do
          verifyValidations v? path
          (match d? with
           | Option.none => pure ()
           | some _ => throw VerifyErr.typeErr)
          if ex.isEmpty then pure ()
          else throw (.fmt ("Unsupported field spec item at " ++ path ++
            ". Items: " ++ keysRepr (specKeys t? r? v? d? ex)) path)
termination_by (sizeOf fs, 0)

/-- The body of the field loop of `_verify_schema` for one `(field, spec)`
pair. -/
def verifyField (f : String) (spec : Spec) (pfx : String) :
    Except VerifyErr Unit :=
  let path := appendPath pfx f
  match spec with
  | .field fs => verifyFieldSpec fs path
  | .coll elems =>
      (match elems with
       | [e] =>
           (match e with
            | .cschema s => verifyFields s path
            | .cptype _ => pure ()
            | .cjunk => throw (.fmt ("Embedded collection at " ++ path ++
                " not described using a Schema object.") path))
       | _ => throw (.fmt ("Exactly one type must be declared for the embedded collection at "
           ++ path) path))
  | .other => throw (.fmt ("Invalid field definition for " ++ path) path)
termination_by (sizeOf spec, 0)

/-- `_verify_schema(schema, path_prefix)` over a `doc_spec` field list. -/
def verifyFields (specs : DocSpec) (pfx : String) : Except VerifyErr Unit :=
  match specs with
  | [] => .ok ()
  | (f, spec) :: rest => do
      verifyField f spec pfx
      verifyFields rest pfx
termination_by (sizeOf specs, 1)
end

/-- `Schema.verify()`. -/
def schemaVerify (specs : DocSpec) : Except VerifyErr Unit :=
  verifyFields specs ""

/-- Substring test used by Python `needle in haystack` on strings. -/
def substrAux (needle : List Char) : List Char → Bool
  | [] => needle.isEmpty
  | c :: t => needle.isPrefixOf (c :: t) || substrAux needle t

/-- Python string membership `needle in hay`. -/
def strContains (hay needle : String) : Bool :=
  substrAux needle.data hay.data

/-- Python `==` between a container element and a string key. -/
def eqStr : Value → String → Bool
  | .str s, k => s = k
  | _, _ => false

/-- Python `field in instance` with per-type semantics: key membership on a
dict, element equality on a list, substring on a string, `TypeError`
elsewhere. -/
def pyMem (inst : Value) (f : String) : Except PyErr Bool :=
  match inst with
  | .doc d => .ok (dmem d f)
  | .list l => .ok (l.any (fun v => eqStr v f))
  | .str s => .ok (strContains s f)
  | _ => .error .typeError

/-- Python `instance[field]` with a string key. -/
def pyGetItem (inst : Value) (f : String) : Except PyErr Value :=
  match inst with
  | .doc d =>
      (match dfind d f with
       | some v => .ok v
       | Option.none => .error (.keyError f))
  | _ => .error .typeError

/-- Python `instance[field] = v` with a string key. -/
def pySetItem (inst : Value) (f : String) (v : Value) : Except PyErr Value :=
  match inst with
  | .doc d => .ok (.doc (dset d f v))
  | _ => .error .typeError

/-- The defaulting branch of the field loop of `_apply_schema_defaults`,
taken when the field has no value: compute and assign the declared default,
if any (a function default is invoked, which fails unless it is
zero-argument).  The `Nat` component counts generator invocations. -/
def applyDefaultsAbsent (f : String) (spec : Spec) (inst : Value) :
    Except PyErr (Value × Nat) :=
  match spec with
  | .field (.mk _ _ _ d? _) =>
      (match d? with
       | some (.dlit v) =>
           (match pySetItem inst f v with
            | .error e => .error e
            | .ok inst1 => .ok (inst1, 0))
       | some (.dfunc a r) =>
           if a = 0 then
             (match pySetItem inst f r with
              | .error e => .error e
              | .ok inst1 => .ok (inst1, 1))
           else .error .typeError
       | Option.none => .ok (inst, 0))
  | _ => .ok (inst, 0)

mutual
/-- `_apply_schema_defaults(schema, instance)` over a `doc_spec` field list.
The in-place mutation of the Python source becomes a returned instance; the
`Nat` component instruments the run with the number of default-generator
invocations (the generators themselves are side-effect-free in this model). -/
def applyDefaultsFields (specs : DocSpec) (inst : Value) :
    Except PyErr (Value × Nat) :=
  match specs with
  | [] => pure (inst, 0)
  | (f, spec) :: rest => do
      let r1 ← applyDefaultsField f spec inst
      let r2 ← applyDefaultsFields rest r1.1
      pure (r2.1, r1.2 + r2.2)
termination_by (sizeOf specs, 0)

/-- The body of the field loop of `_apply_schema_defaults` for one
`(field, spec)` pair: membership test, then either the recurse-into-existing
branch or the apply-a-default branch. -/
def applyDefaultsField (f : String) (spec : Spec) (inst : Value) :
    Except PyErr (Value × Nat) :=
  match pyMem inst f with
  | .error e => .error e
  | .ok mem =>
      if mem then applyDefaultsPresent f spec inst
      else applyDefaultsAbsent f spec inst
termination_by (sizeOf spec, 2)

/-- The `if field in instance:` branch of the field loop: fetch the existing
value and recurse into nested collections and nested documents without
overwriting it. -/
def applyDefaultsPresent (f : String) (spec : Spec) (inst : Value) :
    Except PyErr (Value × Nat) :=
  match pyGetItem inst f with
  | .error e => .error e
  | .ok value =>
      (match spec with
       | .coll elems =>
           (match value with
            | .list items =>
                (match elems with
                 | [] => .error .indexError
                 | .cschema s :: _ =>
                     (match applyDefaultsItems s items with
                      | .error e => .error e
                      | .ok r =>
                          (match pySetItem inst f (.list r.1) with
                           | .error e => .error e
                           | .ok inst1 => .ok (inst1, r.2)))
                 | _ :: _ => .ok (inst, 0))
            | _ => .ok (inst, 0))
       | .field (.mk t? _ _ _ _) =>
           (match t? with
            | Option.none => .error (.keyError "type")
            | some (.nested s) =>
                (match value with
                 | .doc _ =>
                     (match applyDefaultsFields s value with
                      | .error e => .error e
                      | .ok r =>
                          (match pySetItem inst f r.1 with
                           | .error e => .error e
                           | .ok inst1 => .ok (inst1, r.2)))
                 | _ => .ok (inst, 0))
            | some _ => .ok (inst, 0))
       | .other => .error .typeError)
termination_by (sizeOf spec, 1)

/-- The `for item in value` loop applying nested-schema defaults to every
element of an embedded collection. -/
def applyDefaultsItems (s : DocSpec) (items : List Value) :
    Except PyErr (List Value × Nat) :=
  match items with
  | [] => pure ([], 0)
  | it :: rest => do
      let r1 ← applyDefaultsFields s it
      let r2 ← applyDefaultsItems s rest
      pure (r1.1 :: r2.1, r1.2 + r2.2)
termination_by (sizeOf s, items.length + 1)
end

/-- `Schema.apply_defaults(instance)`. -/
def schemaApplyDefaults (specs : DocSpec) (inst : Value) :
    Except PyErr (Value × Nat) :=
  applyDefaultsFields specs inst

/-- A `VirtualField`: the `_getter` and `_setter` attributes, each absent
until the corresponding registration ran (`__init__` sets neither).  A stored
function is represented by its argument count, the only property the engine
inspects. -/
inductive VirtualField : Type where
  | mk : Option Nat → Option Nat → VirtualField
  deriving Repr, DecidableEq

/-- `VirtualField.get(fn)`: reject a function whose arity is not 1, else store
it in `_getter`. -/
def VirtualField.get (vf : VirtualField) (arity : Nat) :
    Except PyErr VirtualField :=
  if arity = 1 then
    match vf with
    | .mk _ s => .ok (.mk (some arity) s)
  else .error (.valueError "Virtual field getters take 1 argument only")

/-- `VirtualField.set(fn)`: reject a function whose arity is not 2, else store
it in `_setter` (the source's error message says "getters"). -/
def VirtualField.set (vf : VirtualField) (arity : Nat) :
    Except PyErr VirtualField :=
  if arity = 2 then
    match vf with
    | .mk g _ => .ok (.mk g (some arity))
  else .error (.valueError "Virtual field getters take 2 arguments only")

/-- `VirtualField.has_getter()`: reads `self._getter`, raising
`AttributeError` when the attribute was never assigned; a stored getter is a
function, hence `!= None`. -/
def VirtualField.hasGetter : VirtualField → Except PyErr Bool
  | .mk Option.none _ => .error (.attributeError "_getter")
  | .mk (some _) _ => .ok true

/-- `VirtualField.has_setter()`: reads `self._setter`, raising
`AttributeError` when the attribute was never assigned. -/
def VirtualField.hasSetter : VirtualField → Except PyErr Bool
  | .mk _ Option.none => .error (.attributeError "_setter")
  | .mk _ (some _) => .ok true

/-- `Schema.virtual(field_name, getter, setter)`: create the `VirtualField`
on first use, register a supplied getter/setter (a `None` argument is falsy
and skipped), and return the updated registry together with the field. -/
def schemaVirtual (virtuals : List (String × VirtualField)) (name : String)
    (getter setter : Option Nat) :
    Except PyErr (List (String × VirtualField) × VirtualField) := do
  let virtuals1 :=
    if virtuals.any (fun kv => kv.1 = name) then virtuals
    else virtuals ++ [(name, .mk Option.none Option.none)]
  let vf0 :=
    match virtuals1.find? (fun kv => kv.1 = name) with
    | some kv => kv.2
    | Option.none => .mk Option.none Option.none
  let vf1 ←
    match getter with
    | some a => vf0.get a
    | Option.none => pure vf0
  let vf2 ←
    match setter with
    | some a => vf1.set a
    | Option.none => pure vf1
  pure (virtuals1.map (fun kv => if kv.1 = name then (name, vf2) else kv), vf2)

/-- Whether a validator declaration is a unary function. -/
def arity1 : ValidatorDecl → Bool
  | .vfunc a _ => a = 1
  | .vjunk => false

/-- The message of the last validator in the list whose result is truthy on
the given value, if any (later validators supersede earlier ones). -/
def lastTruthy (vds : List ValidatorDecl) (v : Value) : Option Value :=
  match vds with
  | [] => Option.none
  | .vfunc _ f :: rest =>
      (match lastTruthy rest v with
       | some m => some m
       | Option.none =>
           let r := f v
           if truthy r then some r else Option.none)
  | .vjunk :: rest => lastTruthy rest v

/-- The type-mismatch errors contributed by the elements of an embedded
collection of declared primitive type `pt`, starting at index `i`: one entry
at `path.index` per element that is not an instance of `pt`. -/
def itemTypeErrs (pt : PType) (items : List Value) (i : Nat) (path : String) :
    Errors :=
  match items with
  | [] => []
  | it :: rest =>
      if isInst it pt then itemTypeErrs pt rest (i + 1) path
      else (path ++ "." ++ toString i, .str "List item is of incorrect type")
        :: itemTypeErrs pt rest (i + 1) path

/-- Whether a value is a Python dict. -/
def Value.isDoc : Value → Bool
  | .doc _ => true
  | _ => false

/-- The effect of one iteration of the `_apply_schema_defaults` field loop,
expressed as a function of the field's current value (`Option.none` when the
key is absent): either a Python error, or an optional new value for the key
together with the number of generator invocations.  `adField_doc_eq` proves
this is exactly what `applyDefaultsField` does on a dict instance. -/
def adFieldAction (spec : Spec) (value? : Option Value) :
    Except PyErr (Option Value × Nat) :=
  match value? with
  | some value =>
      (match spec with
       | .coll elems =>
           (match value with
            | .list items =>
                (match elems with
                 | [] => .error .indexError
                 | .cschema s :: _ =>
                     (match applyDefaultsItems s items with
                      | .error e => .error e
                      | .ok r => .ok (some (.list r.1), r.2))
                 | _ :: _ => .ok (Option.none, 0))
            | _ => .ok (Option.none, 0))
       | .field (.mk t? _ _ _ _) =>
           (match t? with
            | Option.none => .error (.keyError "type")
            | some (.nested s) =>
                (match value with
                 | .doc _ =>
                     (match applyDefaultsFields s value with
                      | .error e => .error e
                      | .ok r => .ok (some r.1, r.2))
                 | _ => .ok (Option.none, 0))
            | some _ => .ok (Option.none, 0))
       | .other => .error .typeError)
  | Option.none =>
      (match spec with
       | .field (.mk _ _ _ d? _) =>
           (match d? with
            | some (.dlit v) => .ok (some v, 0)
            | some (.dfunc a r) =>
                if a = 0 then .ok (some r, 1) else .error .typeError
            | Option.none => .ok (Option.none, 0))
       | _ => .ok (Option.none, 0))

/-- The field value after a defaulting step: the updated value if the step
assigned one, otherwise the previous value. -/
def updOr (upd value? : Option Value) : Option Value :=
  match upd with
  | some w => some w
  | Option.none => value?

/-- Whether a field spec declares a `default`. -/
def specHasDefault : Spec → Bool
  | .field (.mk _ _ _ (some _) _) => true
  | _ => false

mutual
/-- Modelled from the spec (section 4.3): the number of default-generator
invocations one defaulting pass makes over a schema and an instance — exactly
one per declared field that is absent and carries a generator (function)
default, none for fields that already have a value, with the recursion into
existing nested documents and embedded collections prescribed there. -/
def genCountFields (specs : DocSpec) (inst : Value) : Nat :=
  match inst with
  | .doc d =>
      (match specs with
       | [] => 0
       | (f, spec) :: rest => genCountVal spec (dfind d f) + genCountFields rest inst)
  | _ => 0
termination_by (sizeOf specs, 1)

/-- Modelled from the spec (section 4.3): generator invocations contributed
by one field, as a function of its current value. -/
def genCountVal (spec : Spec) (value? : Option Value) : Nat :=
  match value? with
  | some value =>
      (match spec with
       | .coll (.cschema s :: _) =>
           (match value with
            | .list items => genCountItems s items
            | _ => 0)
       | .field (.mk (some (.nested s)) _ _ _ _) =>
           (match value with
            | .doc _ => genCountFields s value
            | _ => 0)
       | _ => 0)
  | Option.none =>
      (match spec with
       | .field (.mk _ _ _ (some (.dfunc _ _)) _) => 1
       | _ => 0)
termination_by (sizeOf spec, 0)

/-- Modelled from the spec (section 4.3): generator invocations contributed
by the elements of an existing embedded collection. -/
def genCountItems (s : DocSpec) (items : List Value) : Nat :=
  match items with
  | [] => 0
  | it :: rest => genCountFields s it + genCountItems s rest
termination_by (sizeOf s, items.length + 2)
end

mutual
/-- The field-spec invariant of the spec's data model (section 3): a spec
carrying a `default` declares a `type` that is not a nested `Schema`
(nested-document fields may carry only `type`/`required`), recursively. -/
def tameFields (specs : DocSpec) : Bool :=
  match specs with
  | [] => true
  | (_, spec) :: rest => tameSpec spec && tameFields rest
termination_by (sizeOf specs, 1)

/-- One field spec's share of `tameFields`. -/
def tameSpec (spec : Spec) : Bool :=
  match spec with
  | .field (.mk t? _ _ d? _) =>
      (match t?, d? with
       | some (.nested s), Option.none => tameFields s
       | some (.nested _), some _ => false
       | some _, _ => true
       | Option.none, some _ => false
       | Option.none, Option.none => true)
  | .coll (.cschema s :: _) => tameFields s
  | .coll _ => true
  | .other => true
termination_by (sizeOf spec, 0)
end

mutual
/-- Python dicts have unique keys: field names of a `doc_spec` are pairwise
distinct, recursively through nested schemas and collection element
schemas. -/
def distinctFields (specs : DocSpec) : Bool :=
  match specs with
  | [] => true
  | (f, spec) :: rest =>
      !((rest.map Prod.fst).contains f) && distinctSpec spec &&
        distinctFields rest
termination_by (sizeOf specs, 1)

/-- One field spec's share of `distinctFields`. -/
def distinctSpec (spec : Spec) : Bool :=
  match spec with
  | .field (.mk (some (.nested s)) _ _ _ _) => distinctFields s
  | .field _ => true
  | .coll (.cschema s :: _) => distinctFields s
  | .coll _ => true
  | .other => true
termination_by (sizeOf spec, 0)
end

mutual
/-- A sufficient condition for `_apply_schema_defaults` to traverse a given
instance without raising: the instance is a dict, every recursion target it
meets is well-shaped, and every function default it invokes is
zero-argument. -/
def safeFields (specs : DocSpec) (inst : Value) : Bool :=
  match inst with
  | .doc d =>
      (match specs with
       | [] => true
       | (f, spec) :: rest => safeVal spec (dfind d f) && safeFields rest inst)
  | _ => specs.isEmpty
termination_by (sizeOf specs, 1)

/-- One field's share of `safeFields`, as a function of its current value. -/
def safeVal (spec : Spec) (value? : Option Value) : Bool :=
  match value? with
  | some value =>
      (match spec with
       | .coll elems =>
           (match value with
            | .list items =>
                (match elems with
                 | [] => false
                 | .cschema s :: _ => safeItems s items
                 | _ :: _ => true)
            | _ => true)
       | .field (.mk t? _ _ _ _) =>
           (match t? with
            | Option.none => false
            | some (.nested s) =>
                (match value with
                 | .doc _ => safeFields s value
                 | _ => true)
            | some _ => true)
       | .other => false)
  | Option.none =>
      (match spec with
       | .field (.mk _ _ _ (some (.dfunc a _)) _) => a == 0
       | _ => true)
termination_by (sizeOf spec, 0)

/-- The elements of an existing embedded collection are safe to recurse
into. -/
def safeItems (s : DocSpec) (items : List Value) : Bool :=
  match items with
  | [] => true
  | it :: rest => safeFields s it && safeItems s rest
termination_by (sizeOf s, items.length + 2)
end

end Mongothon

namespace Mongothon

/-! ## Helper lemmas -/

theorem ok_bind {a b e : Type} (x : a) (f : a → Except e b) :
    (Except.ok x >>= f) = f x := rfl

theorem err_bind {a b e : Type} (er : e) (f : a → Except e b) :
    (Except.error er >>= f : Except e b) = Except.error er := rfl

theorem throw_eq {a e : Type} (er : e) :
    (throw er : Except e a) = Except.error er := rfl

theorem pure_ok {a e : Type} (x : a) :
    (pure x : Except e a) = Except.ok x := rfl

theorem map_ok {a b e : Type} (g : a → b) (x : a) :
    (g <$> (Except.ok x : Except e a)) = Except.ok (g x) := rfl

theorem map_err {a b e : Type} (g : a → b) (er : e) :
    (g <$> (Except.error er : Except e a) : Except e b) = Except.error er := rfl

theorem dset_dset (e : Errors) (k : String) (a b : Value) :
    dset (dset e k a) k b = dset e k b := by
  induction e with
  | nil => simp [dset]
  | cons hd tl ih =>
      obtain ⟨k0, v0⟩ := hd
      by_cases h : k0 = k <;> simp [dset, h, ih]

theorem dset_append_fresh (e : Errors) (k : String) (v : Value)
    (h : dmem e k = false) : dset e k v = e ++ [(k, v)] := by
  induction e with
  | nil => simp [dset]
  | cons hd tl ih =>
      obtain ⟨k0, v0⟩ := hd
      simp [dmem] at h
      simp [dset, h.1, ih h.2]

theorem dmem_append (e1 e2 : Errors) (k : String) :
    dmem (e1 ++ e2) k = (dmem e1 k || dmem e2 k) := by
  induction e1 with
  | nil => simp [dmem]
  | cons hd tl ih => obtain ⟨k0, v0⟩ := hd; simp [dmem, ih, Bool.or_assoc]

theorem verifyFields_append (l1 l2 : DocSpec) (pfx : String) :
    verifyFields (l1 ++ l2) pfx
      = verifyFields l1 pfx >>= fun _ => verifyFields l2 pfx := by
  induction l1 with
  | nil => simp only [List.nil_append, verifyFields, ok_bind]
  | cons hd tl ih =>
      obtain ⟨f, spec⟩ := hd
      simp only [List.cons_append, verifyFields]
      cases h : verifyField f spec pfx with
      | error e => simp only [h, err_bind]
      | ok u => simp only [h, ok_bind, ih]

theorem validateFields_append (l1 l2 : DocSpec) (d : List (String × Value))
    (errs : Errors) (pfx : String) :
    validateFields (l1 ++ l2) d errs pfx
      = validateFields l1 d errs pfx >>= fun errs1 => validateFields l2 d errs1 pfx := by
  induction l1 generalizing errs with
  | nil => simp only [List.nil_append, validateFields, ok_bind]
  | cons hd tl ih =>
      obtain ⟨f, spec⟩ := hd
      simp only [List.cons_append, validateFields]
      cases h : validateField f spec d errs pfx with
      | error e => simp only [h, err_bind]
      | ok errs1 => simp only [h, ok_bind, ih]

theorem dmem_eq_isSome (d : List (String × Value)) (k : String) :
    dmem d k = (dfind d k).isSome := by
  induction d with
  | nil => simp [dmem, dfind]
  | cons hd tl ih =>
      obtain ⟨k0, v0⟩ := hd
      by_cases h : k0 = k <;> simp [dmem, dfind, h, ih]

theorem dfind_dset_self (d : List (String × Value)) (k : String) (v : Value) :
    dfind (dset d k v) k = some v := by
  induction d with
  | nil => simp [dset, dfind]
  | cons hd tl ih =>
      obtain ⟨k0, v0⟩ := hd
      by_cases h : k0 = k <;> simp [dset, dfind, h, ih]

theorem dfind_dset_ne (d : List (String × Value)) (k g : String) (v : Value)
    (h : g ≠ k) : dfind (dset d k v) g = dfind d g := by
  induction d with
  | nil => simp [dset, dfind, Ne.symm h]
  | cons hd tl ih =>
      obtain ⟨k0, v0⟩ := hd
      by_cases h0 : k0 = k
      · subst h0
        simp [dset, dfind, Ne.symm h]
      · simp [dset, dfind, h0, ih]

theorem dset_of_dfind (d : List (String × Value)) (k : String) (v : Value)
    (h : dfind d k = some v) : dset d k v = d := by
  induction d with
  | nil => simp [dfind] at h
  | cons hd tl ih =>
      obtain ⟨k0, v0⟩ := hd
      by_cases h0 : k0 = k
      · subst h0
        simp [dfind] at h
        simp [dset, h]
      · simp [dfind, h0] at h
        simp [dset, h0, ih h]

theorem adField_doc_eq (f : String) (spec : Spec)
    (d : List (String × Value)) :
    applyDefaultsField f spec (.doc d)
      = (match adFieldAction spec (dfind d f) with
         | .error e => .error e
         | .ok (some w, n) => .ok (.doc (dset d f w), n)
         | .ok (Option.none, n) => .ok (.doc d, n)) := by
  rw [applyDefaultsField]
  cases hv : dfind d f with
  | none =>
      have hm : dmem d f = false := by rw [dmem_eq_isSome, hv]; rfl
      simp only [pyMem, hm, Bool.false_eq_true, if_neg, ite_false]
      cases spec with
      | field fs =>
          cases fs with
          | mk t? r? v? d? ex =>
              cases d? with
              | none => simp [applyDefaultsAbsent, adFieldAction]
              | some dd =>
                  cases dd with
                  | dlit v =>
                      simp [applyDefaultsAbsent, adFieldAction, pySetItem]
                  | dfunc a r =>
                      by_cases ha : a = 0 <;>
                        simp [applyDefaultsAbsent, adFieldAction, pySetItem, ha]
      | coll elems => simp [applyDefaultsAbsent, adFieldAction]
      | other => simp [applyDefaultsAbsent, adFieldAction]
  | some value =>
      have hm : dmem d f = true := by rw [dmem_eq_isSome, hv]; rfl
      simp only [pyMem, hm, if_pos, ite_true]
      rw [applyDefaultsPresent]
      simp only [pyGetItem, hv]
      cases spec with
      | coll elems =>
          cases value
          case list items =>
              cases elems with
              | nil => simp [adFieldAction]
              | cons e tail =>
                  cases e with
                  | cschema s =>
                      cases hrec : applyDefaultsItems s items with
                      | error er => simp [adFieldAction, hrec]
                      | ok r => simp [adFieldAction, hrec, pySetItem]
                  | cptype pt => simp [adFieldAction]
                  | cjunk => simp [adFieldAction]
          all_goals simp [adFieldAction]
      | field fs =>
          cases fs with
          | mk t? r? v? d? ex =>
              cases t? with
              | none => simp [adFieldAction]
              | some ft =>
                  cases ft with
                  | nested s =>
                      cases value
                      case doc dd =>
                          cases hrec : applyDefaultsFields s (.doc dd) with
                          | error er => simp [adFieldAction, hrec]
                          | ok r => simp [adFieldAction, hrec, pySetItem]
                      all_goals simp [adFieldAction]
                  | prim pt => simp [adFieldAction]
                  | mixedInst ts => simp [adFieldAction]
                  | junkT => simp [adFieldAction]
      | other => simp [adFieldAction]

theorem adPresent_nodoc (f : String) (spec : Spec) (inst : Value)
    (hd : inst.isDoc = false) :
    applyDefaultsPresent f spec inst = .error .typeError := by
  cases inst <;> simp [Value.isDoc] at hd <;>
    rw [applyDefaultsPresent] <;> simp [pyGetItem]

theorem adAbsent_nodoc (f : String) (spec : Spec) (inst : Value)
    (out : Value) (n : Nat) (hd : inst.isDoc = false)
    (h : applyDefaultsAbsent f spec inst = .ok (out, n)) :
    out = inst ∧ n = 0 := by
  cases spec with
  | field fs =>
      cases fs with
      | mk t? r? v? d? ex =>
          cases d? with
          | none =>
              simp [applyDefaultsAbsent] at h
              exact ⟨h.1.symm, h.2.symm⟩
          | some dd =>
              cases dd with
              | dlit v =>
                  cases inst <;> simp [Value.isDoc] at hd <;>
                    simp [applyDefaultsAbsent, pySetItem] at h
              | dfunc a r =>
                  by_cases ha : a = 0
                  · cases inst <;> simp [Value.isDoc] at hd <;>
                      simp [applyDefaultsAbsent, pySetItem, ha] at h
                  · simp [applyDefaultsAbsent, ha] at h
  | coll elems =>
      simp [applyDefaultsAbsent] at h
      exact ⟨h.1.symm, h.2.symm⟩
  | other =>
      simp [applyDefaultsAbsent] at h
      exact ⟨h.1.symm, h.2.symm⟩

theorem adField_nodoc (f : String) (spec : Spec) (inst : Value) (out : Value)
    (n : Nat) (hd : inst.isDoc = false)
    (h : applyDefaultsField f spec inst = .ok (out, n)) :
    out = inst ∧ n = 0 := by
  rw [applyDefaultsField] at h
  cases hpm : pyMem inst f with
  | error e => rw [hpm] at h; simp at h
  | ok mem =>
      rw [hpm] at h
      cases mem with
      | true =>
          simp only [if_pos] at h
          rw [adPresent_nodoc f spec inst hd] at h
          simp at h
      | false =>
          simp only [Bool.false_eq_true, if_false, ite_false] at h
          exact adAbsent_nodoc f spec inst out n hd h

theorem adFields_nodoc (specs : DocSpec) : ∀ (inst out : Value) (n : Nat),
    inst.isDoc = false →
    applyDefaultsFields specs inst = .ok (out, n) → out = inst ∧ n = 0 := by
  induction specs with
  | nil =>
      intro inst out n _ h
      simp [applyDefaultsFields, pure_ok] at h
      exact ⟨h.1.symm, h.2.symm⟩
  | cons hd tl ih =>
      obtain ⟨f, spec⟩ := hd
      intro inst out n hdoc h
      rw [applyDefaultsFields] at h
      cases h1 : applyDefaultsField f spec inst with
      | error e => rw [h1] at h; simp only [err_bind] at h; simp at h
      | ok r1 =>
          rw [h1] at h
          simp only [ok_bind] at h
          cases h2 : applyDefaultsFields tl r1.1 with
          | error e => rw [h2] at h; simp only [err_bind, map_err] at h; simp at h
          | ok r2 =>
              rw [h2] at h
              simp only [ok_bind, map_ok, pure_ok] at h
              obtain ⟨hout, hn⟩ : r2.1 = out ∧ r1.2 + r2.2 = n := by
                simpa using h
              obtain ⟨he1, hn1⟩ := adField_nodoc f spec inst r1.1 r1.2 hdoc
                (by rw [h1])
              obtain ⟨he2, hn2⟩ := ih r1.1 r2.1 r2.2 (he1 ▸ hdoc)
                (by rw [h2])
              refine ⟨?_, ?_⟩
              · rw [← hout, he2, he1]
              · omega

theorem adFields_shape (specs : DocSpec) : ∀ (d : List (String × Value))
    (out : Value) (n : Nat),
    applyDefaultsFields specs (.doc d) = .ok (out, n) →
    ∃ dout, out = .doc dout ∧
      ∀ g, g ∉ specs.map Prod.fst → dfind dout g = dfind d g := by
  induction specs with
  | nil =>
      intro d out n h
      simp [applyDefaultsFields, pure_ok] at h
      exact ⟨d, h.1.symm, fun g _ => rfl⟩
  | cons hd tl ih =>
      obtain ⟨f, spec⟩ := hd
      intro d out n h
      rw [applyDefaultsFields] at h
      cases h1 : applyDefaultsField f spec (.doc d) with
      | error e => rw [h1] at h; simp only [err_bind] at h; simp at h
      | ok r1 =>
          rw [h1] at h
          simp only [ok_bind] at h
          rw [adField_doc_eq] at h1
          cases ha : adFieldAction spec (dfind d f) with
          | error e => rw [ha] at h1; simp at h1
          | ok ru =>
              obtain ⟨upd, m⟩ := ru
              rw [ha] at h1
              have h1' : r1 = ((match upd with
                  | some w => Value.doc (dset d f w)
                  | Option.none => Value.doc d), m) := by
                cases upd <;> simpa using h1.symm
              cases h2 : applyDefaultsFields tl r1.1 with
              | error e => rw [h2] at h; simp only [err_bind, map_err] at h; simp at h
              | ok r2 =>
                  rw [h2] at h
                  simp only [ok_bind, map_ok, pure_ok] at h
                  obtain ⟨hout, -⟩ : r2.1 = out ∧ r1.2 + r2.2 = n := by
                    simpa using h
                  have hd1 : ∃ d1, r1.1 = Value.doc d1 ∧
                      ∀ g, g ≠ f → dfind d1 g = dfind d g := by
                    cases upd with
                    | none => exact ⟨d, by rw [h1'], fun g _ => rfl⟩
                    | some w =>
                        exact ⟨dset d f w, by rw [h1'],
                          fun g hg => dfind_dset_ne d f g w hg⟩
                  obtain ⟨d1, hr1, hframe1⟩ := hd1
                  obtain ⟨dout, ho, hframe2⟩ := ih d1 r2.1 r2.2
                    (by rw [← hr1, h2])
                  refine ⟨dout, by rw [← hout, ho], fun g hg => ?_⟩
                  simp only [List.map_cons, List.mem_cons, not_or] at hg
                  rw [hframe2 g (by simpa using hg.2), hframe1 g hg.1]

theorem genCountFields_congr (specs : DocSpec)
    (d d2 : List (String × Value))
    (h : ∀ g, g ∈ specs.map Prod.fst → dfind d g = dfind d2 g) :
    genCountFields specs (.doc d) = genCountFields specs (.doc d2) := by
  induction specs with
  | nil => simp [genCountFields]
  | cons hd tl ih =>
      obtain ⟨f, spec⟩ := hd
      rw [genCountFields, genCountFields]
      rw [h f (by simp)]
      rw [ih (fun g hg => h g (by simp [hg]))]

theorem safeFields_congr (specs : DocSpec) (d d2 : List (String × Value))
    (h : ∀ g, g ∈ specs.map Prod.fst → dfind d g = dfind d2 g) :
    safeFields specs (.doc d) = safeFields specs (.doc d2) := by
  induction specs with
  | nil => simp [safeFields]
  | cons hd tl ih =>
      obtain ⟨f, spec⟩ := hd
      rw [safeFields, safeFields]
      rw [h f (by simp)]
      rw [ih (fun g hg => h g (by simp [hg]))]

theorem strAppend_left_cancel {a b c : String} (h : a ++ b = a ++ c) :
    b = c := by
  have hd := congrArg String.data h
  rw [String.data_append, String.data_append] at hd
  exact String.ext (List.append_cancel_left hd)

theorem applyValidatorList_lastTruthy (vds : List ValidatorDecl) (v : Value)
    (path : String) (errs : Errors)
    (h : ∀ vd ∈ vds, arity1 vd = true) :
    applyValidatorList vds v path errs
      = .ok (match lastTruthy vds v with
             | some m => dset errs path m
             | Option.none => errs) := by
  induction vds generalizing errs with
  | nil => simp [applyValidatorList, lastTruthy]
  | cons vd rest ih =>
      cases vd with
      | vjunk =>
          have := h ValidatorDecl.vjunk (by simp)
          simp [arity1] at this
      | vfunc a f =>
          have ha : a = 1 := by
            have := h (.vfunc a f) (by simp)
            simpa [arity1] using this
          subst ha
          have hrest : ∀ vd ∈ rest, arity1 vd = true := by
            intro vd hvd; exact h vd (by simp [hvd])
          have hstep : applyValidator (.vfunc 1 f) v path errs
              = .ok (if truthy (f v) = true then dset errs path (f v)
                  else errs) := by
            simp [applyValidator]
          simp only [applyValidatorList]
          rw [hstep, ok_bind]
          by_cases ht : truthy (f v) = true
          · rw [if_pos ht, ih _ hrest]
            cases hl : lastTruthy rest v with
            | none => simp [lastTruthy, hl, ht]
            | some m => simp [lastTruthy, hl, ht, dset_dset]
          · rw [if_neg ht, ih _ hrest]
            cases hl : lastTruthy rest v with
            | none => simp [lastTruthy, hl, ht]
            | some m => simp [lastTruthy, hl, ht]

theorem validateItems_prim (pt : PType) (items : List Value) (i : Nat)
    (errs : Errors) (path : String)
    (hfresh : ∀ j, i ≤ j → j < i + items.length →
      dmem errs (path ++ "." ++ toString j) = false)
    (hinj : ∀ j k, i ≤ j → j < i + items.length → i ≤ k →
      k < i + items.length → toString j = toString k → j = k) :
    validateItems [.cptype pt] items i errs path
      = .ok (errs ++ itemTypeErrs pt items i path) := by
  induction items generalizing i errs with
  | nil => simp [validateItems, itemTypeErrs]
  | cons it rest ih =>
      simp only [List.length_cons] at hfresh hinj
      simp only [validateItems]
      by_cases hi : isInst it pt = true
      · rw [if_pos hi]
        rw [ih (i + 1) errs
          (fun j hj hlt => hfresh j (Nat.le_of_succ_le hj) (by omega))
          (fun j k hj hjlt hk hklt he =>
            hinj j k (Nat.le_of_succ_le hj) (by omega)
              (Nat.le_of_succ_le hk) (by omega) he)]
        simp [itemTypeErrs, hi]
      · rw [if_neg hi]
        rw [dset_append_fresh errs _ _
          (hfresh i le_rfl (by omega))]
        rw [ih (i + 1) _ ?fr ?inj]
        · simp [itemTypeErrs, hi]
        case fr =>
          intro j hj hlt
          rw [dmem_append]
          have h1 := hfresh j (Nat.le_of_succ_le hj) (by omega)
          have h2 : dmem [(path ++ "." ++ toString i,
              Value.str "List item is of incorrect type")]
              (path ++ "." ++ toString j) = false := by
            simp only [dmem, Bool.or_false]
            by_contra hc
            simp only [Bool.not_eq_false, decide_eq_true_eq] at hc
            have hts : toString i = toString j := strAppend_left_cancel hc
            have := hinj i j le_rfl (by omega)
              (Nat.le_of_succ_le hj) (by omega) hts
            omega
          rw [h1, h2]
          rfl
        case inj =>
          intro j k hj hjlt hk hklt he
          exact hinj j k (Nat.le_of_succ_le hj) (by omega)
            (Nat.le_of_succ_le hk) (by omega) he

mutual
/-- If the schema has distinct field names and the instance lies in the safe
envelope, the defaulting walk over a field list returns normally. -/
theorem adSafe_fields (specs : DocSpec) (inst : Value)
    (hdist : distinctFields specs = true)
    (hsafe : safeFields specs inst = true) :
    ∃ r, applyDefaultsFields specs inst = .ok r := by
  match specs, hdist, hsafe with
  | [], _, _ => exact ⟨(inst, 0), by simp [applyDefaultsFields, pure_ok]⟩
  | (f, spec) :: rest, hdist, hsafe =>
      have hdist2 := hdist
      have hsafe2 := hsafe
      clear hdist hsafe
      cases inst
      case doc d =>
          rw [distinctFields, Bool.and_eq_true, Bool.and_eq_true] at hdist2
          obtain ⟨⟨hnotin, hdspec⟩, hdrest⟩ := hdist2
          rw [safeFields, Bool.and_eq_true] at hsafe2
          obtain ⟨hsv, hsrest⟩ := hsafe2
          obtain ⟨ru, hru⟩ := adSafe_val spec (dfind d f) hdspec hsv
          obtain ⟨upd, m⟩ := ru
          have hnotin2 : f ∉ rest.map Prod.fst := by simpa using hnotin
          have hnotin' : ∀ g, g ∈ rest.map Prod.fst → g ≠ f := by
            intro g hg he
            exact hnotin2 (he ▸ hg)
          cases upd with
          | none =>
              have h1 : applyDefaultsField f spec (.doc d)
                  = .ok (.doc d, m) := by
                rw [adField_doc_eq, hru]
              obtain ⟨r2, hr2⟩ := adSafe_fields rest (.doc d) hdrest hsrest
              exact ⟨(r2.1, m + r2.2), by
                rw [applyDefaultsFields, h1, ok_bind, hr2]
                simp [map_ok]⟩
          | some w =>
              have h1 : applyDefaultsField f spec (.doc d)
                  = .ok (.doc (dset d f w), m) := by
                rw [adField_doc_eq, hru]
              have hsrest' : safeFields rest (.doc (dset d f w)) = true := by
                rw [safeFields_congr rest (dset d f w) d
                  (fun g hg => dfind_dset_ne d f g w (hnotin' g hg))]
                exact hsrest
              obtain ⟨r2, hr2⟩ := adSafe_fields rest (.doc (dset d f w))
                hdrest hsrest'
              exact ⟨(r2.1, m + r2.2), by
                rw [applyDefaultsFields, h1, ok_bind, hr2]
                simp [map_ok]⟩
      all_goals simp [safeFields] at hsafe2
termination_by (sizeOf specs, 1)
decreasing_by all_goals (subst_vars; simp_wf; omega)

/-- If one field's current value is in the safe envelope, its defaulting
action returns normally. -/
theorem adSafe_val (spec : Spec) (value? : Option Value)
    (hdist : distinctSpec spec = true)
    (hsafe : safeVal spec value? = true) :
    ∃ r, adFieldAction spec value? = .ok r := by
  cases value? with
  | none =>
      cases spec with
      | field fs =>
          cases fs with
          | mk t? r? v? d? ex =>
              cases d? with
              | none => exact ⟨(Option.none, 0), by simp [adFieldAction]⟩
              | some dd =>
                  cases dd with
                  | dlit v => exact ⟨(some v, 0), by simp [adFieldAction]⟩
                  | dfunc a r =>
                      rw [safeVal] at hsafe
                      simp at hsafe
                      exact ⟨(some r, 1), by simp [adFieldAction, hsafe]⟩
      | coll elems => exact ⟨(Option.none, 0), by simp [adFieldAction]⟩
      | other => exact ⟨(Option.none, 0), by simp [adFieldAction]⟩
  | some value =>
      cases spec with
      | coll elems =>
          cases value
          case list items =>
              cases elems with
              | nil => rw [safeVal] at hsafe; simp at hsafe
              | cons e tail =>
                  cases e with
                  | cschema s =>
                      rw [safeVal] at hsafe
                      rw [distinctSpec] at hdist
                      obtain ⟨ri, hri⟩ := adSafe_items s items hdist hsafe
                      exact ⟨(some (.list ri.1), ri.2), by
                        simp [adFieldAction, hri]⟩
                  | cptype pt =>
                      exact ⟨(Option.none, 0), by simp [adFieldAction]⟩
                  | cjunk =>
                      exact ⟨(Option.none, 0), by simp [adFieldAction]⟩
          all_goals exact ⟨(Option.none, 0), by simp [adFieldAction]⟩
      | field fs =>
          cases fs with
          | mk t? r? v? d? ex =>
              cases t? with
              | none => rw [safeVal] at hsafe; simp at hsafe
              | some ft =>
                  cases ft with
                  | nested s =>
                      cases value
                      case doc dd =>
                          rw [safeVal] at hsafe
                          rw [distinctSpec] at hdist
                          obtain ⟨ri, hri⟩ := adSafe_fields s (.doc dd)
                            hdist hsafe
                          exact ⟨(some ri.1, ri.2), by
                            simp [adFieldAction, hri]⟩
                      all_goals
                        exact ⟨(Option.none, 0), by simp [adFieldAction]⟩
                  | prim pt =>
                      exact ⟨(Option.none, 0), by simp [adFieldAction]⟩
                  | mixedInst ts =>
                      exact ⟨(Option.none, 0), by simp [adFieldAction]⟩
                  | junkT =>
                      exact ⟨(Option.none, 0), by simp [adFieldAction]⟩
      | other => rw [safeVal] at hsafe; simp at hsafe
termination_by (sizeOf spec, 0)
decreasing_by all_goals (subst_vars; simp_wf; omega)

/-- If every element of an existing embedded collection is in the safe
envelope, defaulting all elements returns normally. -/
theorem adSafe_items (s : DocSpec) (items : List Value)
    (hdist : distinctFields s = true)
    (hsafe : safeItems s items = true) :
    ∃ r, applyDefaultsItems s items = .ok r := by
  cases items with
  | nil => exact ⟨([], 0), by simp [applyDefaultsItems, pure_ok]⟩
  | cons it rest =>
      rw [safeItems, Bool.and_eq_true] at hsafe
      obtain ⟨h1, h2⟩ := hsafe
      obtain ⟨r1, hr1⟩ := adSafe_fields s it hdist h1
      obtain ⟨r2, hr2⟩ := adSafe_items s rest hdist h2
      exact ⟨(r1.1 :: r2.1, r1.2 + r2.2), by
        rw [applyDefaultsItems, hr1, ok_bind, hr2]
        simp [map_ok]⟩
termination_by (sizeOf s, items.length + 2)
decreasing_by all_goals (subst_vars; simp_wf; omega)
end

theorem genCountFields_nodoc (specs : DocSpec) (inst : Value)
    (hd : inst.isDoc = false) : genCountFields specs inst = 0 := by
  cases inst <;> simp [Value.isDoc] at hd <;> simp [genCountFields]

/-- A field that is absent and whose spec declares no default stays absent
through a defaulting pass. -/
theorem adFields_absent (specs : DocSpec) : ∀ (d : List (String × Value))
    (out : Value) (n : Nat) (f : String),
    applyDefaultsFields specs (.doc d) = .ok (out, n) →
    dfind d f = Option.none →
    (∀ sp, (f, sp) ∈ specs → specHasDefault sp = false) →
    ∃ dout, out = .doc dout ∧ dfind dout f = Option.none := by
  induction specs with
  | nil =>
      intro d out n f h hfind _
      simp [applyDefaultsFields, pure_ok] at h
      exact ⟨d, h.1.symm, hfind⟩
  | cons hd tl ih =>
      obtain ⟨g, spec⟩ := hd
      intro d out n f h hfind hnd
      rw [applyDefaultsFields] at h
      cases h1 : applyDefaultsField g spec (.doc d) with
      | error e => rw [h1] at h; simp only [err_bind] at h; simp at h
      | ok r1 =>
          rw [h1] at h
          simp only [ok_bind] at h
          cases h2 : applyDefaultsFields tl r1.1 with
          | error e => rw [h2] at h; simp only [err_bind, map_err] at h; simp at h
          | ok r2 =>
              rw [h2] at h
              simp only [ok_bind, map_ok, pure_ok] at h
              obtain ⟨hout, -⟩ : r2.1 = out ∧ r1.2 + r2.2 = n := by
                simpa using h
              rw [adField_doc_eq] at h1
              by_cases hg : g = f
              · subst hg
                have hact : adFieldAction spec (dfind d g)
                    = .ok (Option.none, 0) := by
                  rw [hfind]
                  have hnd1 : specHasDefault spec = false := hnd spec (by simp)
                  cases spec with
                  | field fs =>
                      cases fs with
                      | mk t? r? v? d? ex =>
                          cases d? with
                          | none => simp [adFieldAction]
                          | some dd => simp [specHasDefault] at hnd1
                  | coll elems => simp [adFieldAction]
                  | other => simp [adFieldAction]
                rw [hact] at h1
                have hr1 : r1 = (Value.doc d, 0) := by simpa using h1.symm
                have hv : r1.1 = Value.doc d := by rw [hr1]
                obtain ⟨dout, ho, hf⟩ := ih d r2.1 r2.2 g
                  (by rw [← hv, h2]) hfind
                  (fun sp hsp => hnd sp (by simp [hsp]))
                exact ⟨dout, by rw [← hout, ho], hf⟩
              · cases ha : adFieldAction spec (dfind d g) with
                | error e => rw [ha] at h1; simp at h1
                | ok ru =>
                    obtain ⟨upd, m⟩ := ru
                    rw [ha] at h1
                    have hd1 : ∃ d1, r1.1 = Value.doc d1 ∧
                        dfind d1 f = Option.none := by
                      cases upd with
                      | none =>
                          refine ⟨d, ?_, hfind⟩
                          have : r1 = (Value.doc d, m) := by simpa using h1.symm
                          rw [this]
                      | some w =>
                          refine ⟨dset d g w, ?_, ?_⟩
                          · have : r1 = (Value.doc (dset d g w), m) := by
                              simpa using h1.symm
                            rw [this]
                          · rw [dfind_dset_ne d g f w (fun he => hg he.symm)]
                            exact hfind
                    obtain ⟨d1, hr1, hf1⟩ := hd1
                    obtain ⟨dout, ho, hf⟩ := ih d1 r2.1 r2.2 f
                      (by rw [← hr1, h2]) hf1
                      (fun sp hsp => hnd sp (by simp [hsp]))
                    exact ⟨dout, by rw [← hout, ho], hf⟩

mutual
/-- One defaulting pass over a field list is idempotent and invokes each
generator default exactly as prescribed by `genCountFields`: a second pass
returns the same instance with zero generator invocations. -/
theorem adIdem_fields (specs : DocSpec) (inst : Value)
    (htame : tameFields specs = true) (hdist : distinctFields specs = true)
    (out : Value) (n : Nat)
    (h : applyDefaultsFields specs inst = .ok (out, n)) :
    applyDefaultsFields specs out = .ok (out, 0) ∧
      n = genCountFields specs inst := by
  match specs, htame, hdist with
  | [], _, _ =>
      simp [applyDefaultsFields, pure_ok] at h
      obtain ⟨ho, hn⟩ := h
      subst ho
      constructor
      · simp [applyDefaultsFields, pure_ok]
      · rw [← hn]
        cases inst <;> simp [genCountFields]
  | (f, spec) :: rest, htame, hdist =>
      have htame2 := htame
      have hdist2 := hdist
      clear htame hdist
      rw [tameFields, Bool.and_eq_true] at htame2
      obtain ⟨htspec, htrest⟩ := htame2
      rw [distinctFields, Bool.and_eq_true, Bool.and_eq_true] at hdist2
      obtain ⟨⟨hnotin, hdspec⟩, hdrest⟩ := hdist2
      have hnotin2 : f ∉ rest.map Prod.fst := by simpa using hnotin
      by_cases hdoc : inst.isDoc = true
      · obtain ⟨d, rfl⟩ : ∃ d, inst = Value.doc d := by
          cases inst <;> simp [Value.isDoc] at hdoc
          exact ⟨_, rfl⟩
        rw [applyDefaultsFields] at h
        cases h1 : applyDefaultsField f spec (.doc d) with
        | error e => rw [h1] at h; simp only [err_bind] at h; simp at h
        | ok r1 =>
            rw [h1] at h
            simp only [ok_bind] at h
            cases h2 : applyDefaultsFields rest r1.1 with
            | error e =>
                rw [h2] at h; simp only [err_bind, map_err] at h; simp at h
            | ok r2 =>
                rw [h2] at h
                simp only [ok_bind, map_ok, pure_ok] at h
                obtain ⟨hout, hn⟩ : r2.1 = out ∧ r1.2 + r2.2 = n := by
                  simpa using h
                rw [adField_doc_eq] at h1
                cases ha : adFieldAction spec (dfind d f) with
                | error e => rw [ha] at h1; simp at h1
                | ok ru =>
                    obtain ⟨upd, m⟩ := ru
                    rw [ha] at h1
                    obtain ⟨⟨upd2, hact2, hcond⟩, hcount1⟩ :=
                      adIdem_val spec (dfind d f) htspec hdspec upd m ha
                    have hd1 : ∃ d1, r1 = (Value.doc d1, m) ∧
                        dfind d1 f = updOr upd (dfind d f) ∧
                        (∀ g, g ≠ f → dfind d1 g = dfind d g) := by
                      cases upd with
                      | none =>
                          exact ⟨d, by simpa using h1.symm,
                            by simp [updOr], fun g _ => rfl⟩
                      | some w =>
                          exact ⟨dset d f w, by simpa using h1.symm,
                            by simp [updOr, dfind_dset_self],
                            fun g hg => dfind_dset_ne d f g w hg⟩
                    obtain ⟨d1, hr1, hfind1, hframe1⟩ := hd1
                    have h2' : applyDefaultsFields rest (.doc d1)
                        = .ok (r2.1, r2.2) := by
                      rw [← h2, hr1]
                    obtain ⟨hpass2, hcount2⟩ :=
                      adIdem_fields rest (.doc d1) htrest hdrest r2.1 r2.2 h2'
                    obtain ⟨dout, hodout, hframe2⟩ :=
                      adFields_shape rest d1 r2.1 r2.2 h2'
                    have hfind2 : dfind dout f = updOr upd (dfind d f) := by
                      rw [hframe2 f hnotin2, hfind1]
                    have hhead2 : applyDefaultsField f spec (.doc dout)
                        = .ok (.doc dout, 0) := by
                      rw [adField_doc_eq, hfind2, hact2]
                      rcases hcond with hc | hc
                      · subst hc; rfl
                      · cases upd2 with
                        | none => rfl
                        | some w2 =>
                            have : dfind dout f = some w2 := by
                              rw [hfind2, ← hc]
                            simp [dset_of_dfind dout f w2 this]
                    constructor
                    · rw [← hout, hodout]
                      rw [applyDefaultsFields, hhead2, ok_bind]
                      rw [hodout] at hpass2
                      rw [hpass2]
                      rfl
                    · have hcongr : genCountFields rest (.doc d1)
                          = genCountFields rest (.doc d) := by
                        exact genCountFields_congr rest d1 d
                          (fun g hg => hframe1 g (fun he =>
                            hnotin2 (he ▸ hg)))
                      have hr12 : r1.2 = m := by rw [hr1]
                      rw [genCountFields, ← hn, hr12, hcount1, ← hcongr,
                        hcount2]
      · have hdocf : inst.isDoc = false := by simpa using hdoc
        obtain ⟨ho, hn⟩ := adFields_nodoc ((f, spec) :: rest) inst out n
          hdocf h
        subst ho
        constructor
        · rw [h, hn]
        · rw [genCountFields_nodoc _ _ hdocf]
          exact hn
termination_by (sizeOf specs, 1)
decreasing_by all_goals (subst_vars; simp_wf; omega)

/-- One field's defaulting action is idempotent: repeating it on the updated
value assigns nothing new (or re-assigns the same value), makes zero
generator invocations, and the first pass made exactly `genCountVal` of
them. -/
theorem adIdem_val (spec : Spec) (value? : Option Value)
    (htame : tameSpec spec = true) (hdist : distinctSpec spec = true)
    (upd : Option Value) (n : Nat)
    (h : adFieldAction spec value? = .ok (upd, n)) :
    (∃ upd2, adFieldAction spec (updOr upd value?) = .ok (upd2, 0) ∧
      (upd2 = Option.none ∨ updOr upd value? = upd2)) ∧
    n = genCountVal spec value? := by
  cases value? with
  | none =>
      cases spec with
      | field fs =>
          cases fs with
          | mk t? r? v? d? ex =>
              cases d? with
              | none =>
                  simp [adFieldAction] at h
                  obtain ⟨hu, hn⟩ := h
                  subst hu
                  exact ⟨⟨Option.none, by simp [updOr, adFieldAction],
                    Or.inl rfl⟩, by simp [genCountVal, hn]⟩
              | some dd =>
                  have ht : ∃ t, t? = some t ∧ ∀ s, t ≠ .nested s := by
                    cases t? with
                    | none => rw [tameSpec] at htame; simp at htame
                    | some ft =>
                        cases ft with
                        | nested s => rw [tameSpec] at htame; simp at htame
                        | prim pt => exact ⟨_, rfl, by intro s h; cases h⟩
                        | mixedInst ts => exact ⟨_, rfl, by intro s h; cases h⟩
                        | junkT => exact ⟨_, rfl, by intro s h; cases h⟩
                  obtain ⟨t, rfl, htne⟩ := ht
                  have hpass2 : ∀ w, adFieldAction
                      (.field (.mk (some t) r? v? (some dd) ex)) (some w)
                        = .ok (Option.none, 0) := by
                    intro w
                    cases t with
                    | nested s => exact absurd rfl (htne s)
                    | prim pt => simp [adFieldAction]
                    | mixedInst ts => simp [adFieldAction]
                    | junkT => simp [adFieldAction]
                  cases dd with
                  | dlit v =>
                      simp [adFieldAction] at h
                      obtain ⟨hu, hn⟩ := h
                      subst hu
                      exact ⟨⟨Option.none, by simp [updOr, hpass2],
                        Or.inl rfl⟩, by simp [genCountVal, hn]⟩
                  | dfunc a r =>
                      by_cases hza : a = 0
                      · subst hza
                        simp [adFieldAction] at h
                        obtain ⟨hu, hn⟩ := h
                        subst hu
                        exact ⟨⟨Option.none, by simp [updOr, hpass2],
                          Or.inl rfl⟩, by simp [genCountVal, hn]⟩
                      · simp [adFieldAction, hza] at h
      | coll elems =>
          simp [adFieldAction] at h
          obtain ⟨hu, hn⟩ := h
          subst hu
          exact ⟨⟨Option.none, by simp [updOr, adFieldAction], Or.inl rfl⟩,
            by simp [genCountVal, hn]⟩
      | other =>
          simp [adFieldAction] at h
          obtain ⟨hu, hn⟩ := h
          subst hu
          exact ⟨⟨Option.none, by simp [updOr, adFieldAction], Or.inl rfl⟩,
            by simp [genCountVal, hn]⟩
  | some value =>
      cases spec with
      | coll elems =>
          cases value
          case list items =>
              cases elems with
              | nil => simp [adFieldAction] at h
              | cons e tail =>
                  cases e with
                  | cschema s =>
                      rw [tameSpec] at htame
                      rw [distinctSpec] at hdist
                      cases hrec : applyDefaultsItems s items with
                      | error er => simp [adFieldAction, hrec] at h
                      | ok r =>
                          simp [adFieldAction, hrec] at h
                          obtain ⟨hu, hn⟩ := h
                          subst hu
                          obtain ⟨hpass2, hcnt⟩ := adIdem_items s items
                            htame hdist r.1 r.2 (by rw [hrec])
                          refine ⟨⟨some (.list r.1), ?_, Or.inr rfl⟩, ?_⟩
                          · simp [updOr, adFieldAction, hpass2]
                          · simp [genCountVal, ← hn, hcnt]
                  | cptype pt =>
                      simp [adFieldAction] at h
                      obtain ⟨hu, hn⟩ := h
                      subst hu
                      exact ⟨⟨Option.none, by simp [updOr, adFieldAction],
                        Or.inl rfl⟩, by simp [genCountVal, hn]⟩
                  | cjunk =>
                      simp [adFieldAction] at h
                      obtain ⟨hu, hn⟩ := h
                      subst hu
                      exact ⟨⟨Option.none, by simp [updOr, adFieldAction],
                        Or.inl rfl⟩, by simp [genCountVal, hn]⟩
          all_goals (
            simp [adFieldAction] at h
            obtain ⟨hu, hn⟩ := h
            subst hu
            refine ⟨⟨Option.none, by simp [updOr, adFieldAction],
              Or.inl rfl⟩, ?_⟩
            cases elems with
            | nil => simp [genCountVal, hn]
            | cons e tail =>
                cases e <;> simp [genCountVal, hn])
      | field fs =>
          cases fs with
          | mk t? r? v? d? ex =>
              cases t? with
              | none => simp [adFieldAction] at h
              | some ft =>
                  cases ft with
                  | nested s =>
                      cases value
                      case doc dd =>
                          have hts : tameFields s = true := by
                            cases d? with
                            | none => rw [tameSpec] at htame; exact htame
                            | some dd2 => rw [tameSpec] at htame; simp at htame
                          rw [distinctSpec] at hdist
                          cases hrec : applyDefaultsFields s (.doc dd) with
                          | error er => simp [adFieldAction, hrec] at h
                          | ok r =>
                              simp [adFieldAction, hrec] at h
                              obtain ⟨hu, hn⟩ := h
                              subst hu
                              obtain ⟨hpass2, hcnt⟩ := adIdem_fields s
                                (.doc dd) hts hdist r.1 r.2 (by rw [hrec])
                              obtain ⟨dr, hdr, -⟩ :=
                                adFields_shape s dd r.1 r.2 (by rw [hrec])
                              refine ⟨⟨some r.1, ?_, Or.inr rfl⟩, ?_⟩
                              · rw [updOr]
                                rw [hdr] at hpass2 ⊢
                                simp [adFieldAction, hpass2]
                              · simp [genCountVal, ← hn, hcnt]
                      all_goals (
                        simp [adFieldAction] at h
                        obtain ⟨hu, hn⟩ := h
                        subst hu
                        exact ⟨⟨Option.none, by simp [updOr, adFieldAction],
                          Or.inl rfl⟩, by simp [genCountVal, hn]⟩)
                  | prim pt =>
                      simp [adFieldAction] at h
                      obtain ⟨hu, hn⟩ := h
                      subst hu
                      exact ⟨⟨Option.none, by simp [updOr, adFieldAction],
                        Or.inl rfl⟩, by simp [genCountVal, hn]⟩
                  | mixedInst ts =>
                      simp [adFieldAction] at h
                      obtain ⟨hu, hn⟩ := h
                      subst hu
                      exact ⟨⟨Option.none, by simp [updOr, adFieldAction],
                        Or.inl rfl⟩, by simp [genCountVal, hn]⟩
                  | junkT =>
                      simp [adFieldAction] at h
                      obtain ⟨hu, hn⟩ := h
                      subst hu
                      exact ⟨⟨Option.none, by simp [updOr, adFieldAction],
                        Or.inl rfl⟩, by simp [genCountVal, hn]⟩
      | other => simp [adFieldAction] at h
termination_by (sizeOf spec, 0)
decreasing_by all_goals (subst_vars; simp_wf; omega)

/-- Defaulting the elements of an embedded collection is idempotent with the
prescribed generator count. -/
theorem adIdem_items (s : DocSpec) (items : List Value)
    (htame : tameFields s = true) (hdist : distinctFields s = true)
    (out : List Value) (n : Nat)
    (h : applyDefaultsItems s items = .ok (out, n)) :
    applyDefaultsItems s out = .ok (out, 0) ∧ n = genCountItems s items := by
  match items with
  | [] =>
      simp [applyDefaultsItems, pure_ok] at h
      obtain ⟨ho, hn⟩ := h
      subst ho
      exact ⟨by simp [applyDefaultsItems, pure_ok],
        by simp [genCountItems, hn]⟩
  | it :: rest =>
      rw [applyDefaultsItems] at h
      cases h1 : applyDefaultsFields s it with
      | error e => rw [h1] at h; simp only [err_bind] at h; simp at h
      | ok r1 =>
          rw [h1] at h
          simp only [ok_bind] at h
          cases h2 : applyDefaultsItems s rest with
          | error e =>
              rw [h2] at h; simp only [err_bind, map_err] at h; simp at h
          | ok r2 =>
              rw [h2] at h
              simp only [ok_bind, map_ok, pure_ok] at h
              obtain ⟨hout, hn⟩ : r1.1 :: r2.1 = out ∧ r1.2 + r2.2 = n := by
                simpa using h
              obtain ⟨hp1, hc1⟩ := adIdem_fields s it htame hdist r1.1 r1.2
                (by rw [h1])
              obtain ⟨hp2, hc2⟩ := adIdem_items s rest htame hdist r2.1 r2.2
                (by rw [h2])
              constructor
              · rw [← hout]
                rw [applyDefaultsItems, hp1, ok_bind, hp2]
                rfl
              · rw [genCountItems, ← hn, hc1, hc2]
termination_by (sizeOf s, items.length + 2)
decreasing_by all_goals (subst_vars; simp_wf; omega)
end

/-! ## Claim theorems -/

/-- C2: for a dict-based field spec whose field resolves to no value in the
instance, validation records exactly one error, the required message at the
field's dotted path, when the spec has `required: true`, and records nothing
(performing no type or validator checks, whatever `type`, `validates`,
`default` or extra keys declare) when the spec does not mark the field
required. -/
theorem absent_field_required_error (t? : Option FieldType)
    (v? : Option ValidatesDecl) (d? : Option DefaultDecl) (ex : List String)
    (f pfx : String) (d : List (String × Value)) (errs : Errors)
    (h : dfind d f = Option.none) :
    validateField f (.field (.mk t? (some (.bool true)) v? d? ex)) d [] pfx
      = .ok [(appendPath pfx f, .str (appendPath pfx f ++ " is required."))] ∧
    validateField f (.field (.mk t? (some (.bool true)) v? d? ex)) d errs pfx
      = .ok (dset errs (appendPath pfx f)
          (.str (appendPath pfx f ++ " is required."))) ∧
    validateField f (.field (.mk t? Option.none v? d? ex)) d errs pfx
      = .ok errs ∧
    validateField f (.field (.mk t? (some (.bool false)) v? d? ex)) d errs pfx
      = .ok errs := by
  refine ⟨?_, ?_, ?_, ?_⟩ <;>
    simp [validateField, validateValue, dgetD, h, reqTruthy, truthy, dset]

/-- Witness for `absent_field_required_error` at a concrete spec and
instance. -/
theorem absent_field_required_error_witness :
    validateField "age" (.field (.mk (some (.prim .int)) (some (.bool true))
        Option.none Option.none [])) [("name", .str "bob")] [] ""
      = .ok [("age", .str "age is required.")] :=
  (absent_field_required_error (some (.prim .int)) Option.none Option.none []
    "age" "" [("name", .str "bob")] [] (by simp [dfind])).1

/-- C10: a field key explicitly bound to `None` is treated asymmetrically:
`validate` treats it exactly like an absent field (required error when
`required: true`; silently skipped, with no type or validator checks, when
not required; an embedded-collection field bound to `None` is skipped), while
`apply_defaults` treats it as present and never overwrites the `None` with a
declared default, though it does fill the field when the key is truly
absent. -/
theorem none_value_asymmetry (t? : Option FieldType) (t : FieldType)
    (v? : Option ValidatesDecl) (d? : Option DefaultDecl)
    (dd : DefaultDecl) (r? : Option Value) (ex : List String)
    (elems : List CollElem) (f pfx : String) (d : List (String × Value))
    (errs : Errors) (w : Value) :
    validateField f (.field (.mk t? (some (.bool true)) v? d? ex))
        ((f, .none) :: d) errs pfx
      = .ok (dset errs (appendPath pfx f)
          (.str (appendPath pfx f ++ " is required."))) ∧
    validateField f (.field (.mk t? Option.none v? d? ex))
        ((f, .none) :: d) errs pfx = .ok errs ∧
    validateField f (.coll elems) ((f, .none) :: d) errs pfx = .ok errs ∧
    applyDefaultsField f (.field (.mk (some t) r? v? (some dd) ex))
        (.doc ((f, .none) :: d))
      = .ok (.doc ((f, .none) :: d), 0) ∧
    applyDefaultsField f (.field (.mk (some t) r? v? (some (.dlit w)) ex))
        (.doc [])
      = .ok (.doc [(f, w)], 0) := by
  refine ⟨?_, ?_, ?_, ?_, ?_⟩
  · simp [validateField, validateValue, dgetD, dfind, reqTruthy, truthy]
  · simp [validateField, validateValue, dgetD, dfind, reqTruthy]
  · simp [validateField, dgetD, dfind]
  · cases t <;>
      simp [applyDefaultsField, applyDefaultsPresent, pyMem, dmem, pyGetItem,
        dfind, pySetItem]
  · simp [applyDefaultsField, applyDefaultsAbsent, pyMem, dmem, pySetItem,
      dset]

/-- C9 (code bug): on a `VirtualField` freshly created by
`schema.virtual(name)` with no getter or setter supplied, `has_getter()` and
`has_setter()` do not return `False` as documented but raise
`AttributeError`, because `__init__` never initializes `_getter`/`_setter`;
after registering a getter of arity 1 (setter of arity 2) the corresponding
query returns `True`. -/
theorem virtual_fresh_has_getter_raises :
    (schemaVirtual [] "x" Option.none Option.none >>=
        fun r => r.2.hasGetter) = .error (.attributeError "_getter") ∧
    (schemaVirtual [] "x" Option.none Option.none >>=
        fun r => r.2.hasSetter) = .error (.attributeError "_setter") ∧
    (schemaVirtual [] "x" (some 1) Option.none >>=
        fun r => r.2.hasGetter) = .ok true ∧
    (schemaVirtual [] "x" Option.none (some 2) >>=
        fun r => r.2.hasSetter) = .ok true := by
  refine ⟨rfl, rfl, rfl, rfl⟩

/-- C7 counterexample: `verify` accepts a primitive-typed field spec whose
`default` is a one-argument callable, although the claim says a default that
is not an instance of the declared type and not a zero-argument callable
raises a schema-format error. -/
theorem default_arity_unchecked_cex :
    verifyFieldSpec (.mk (some (.prim .int)) Option.none Option.none
        (some (.dfunc 1 (.int 0))) []) "f" = .ok () := by
  simp [verifyFieldSpec, verifyValidations]

/-- C7 amended: for a primitive-typed field spec carrying a `default` (and
otherwise well-formed), `verify` succeeds exactly when the default is an
instance of the declared type or is a function of ANY arity — the argument
count of a callable default is never checked. -/
theorem default_check_accepts_any_callable (pt : PType) (path : String)
    (dd : DefaultDecl) :
    verifyFieldSpec (.mk (some (.prim pt)) Option.none Option.none
        (some dd) []) path
      = (match dd with
         | .dlit v =>
             if isInst v pt then .ok ()
             else .error (.fmt ("Default value for " ++ path ++
               " is not of the nominated type.") path)
         | .dfunc _ _ => .ok ()) := by
  cases dd with
  | dlit v =>
      by_cases h : isInst v pt = true <;>
        simp [verifyFieldSpec, verifyValidations, h, ok_bind, throw_eq]
  | dfunc a r => simp [verifyFieldSpec, verifyValidations]

/-- C4: for a field value that passed its type check (against a primitive or
against a `Mixed` union), every declared validator is applied in declaration
order without short-circuiting, each truthy result overwrites the error entry
at the field's path, so only the last failing validator's message is
retained; a falsy result contributes no error. -/
theorem validators_in_order_last_wins (pt : PType) (ts : List PType)
    (v : Value) (vds : List ValidatorDecl) (g : Value → Value)
    (r? : Option Value) (d? : Option DefaultDecl) (ex : List String)
    (path : String) (errs : Errors)
    (harity : ∀ vd ∈ vds, arity1 vd = true) :
    (isInst v pt = true →
      validateValue v (.mk (some (.prim pt)) r? (some (.vlist vds)) d? ex)
          path errs
        = .ok (match lastTruthy vds v with
               | some m => dset errs path m
               | Option.none => errs)) ∧
    (ts.any (fun t => isInst v t) = true →
      validateValue v (.mk (some (.mixedInst ts)) r? (some (.vlist vds)) d? ex)
          path errs
        = .ok (match lastTruthy vds v with
               | some m => dset errs path m
               | Option.none => errs)) ∧
    (isInst v pt = true →
      validateValue v (.mk (some (.prim pt)) r?
          (some (.vsingle (.vfunc 1 g))) d? ex) path errs
        = .ok (if truthy (g v) = true then dset errs path (g v) else errs)) := by
  refine ⟨fun h => ?_, fun h => ?_, fun h => ?_⟩
  · cases v <;> cases pt <;>
      simp_all [validateValue, runValidations, isInst,
        applyValidatorList_lastTruthy _ _ _ _ harity]
  · cases v
    case none =>
        simp only [List.any_eq_true] at h
        obtain ⟨t, -, ht⟩ := h
        simp [isInst] at ht
    all_goals
      simp [validateValue, runValidations, h,
        applyValidatorList_lastTruthy _ _ _ _ harity]
  · cases v <;> cases pt <;>
      simp_all [validateValue, runValidations, applyValidator, isInst]

/-- Witness for `validators_in_order_last_wins`: three validators, of which
the first and third fail; only the third's message is recorded. -/
theorem validators_in_order_last_wins_witness :
    validateValue (.int 3) (.mk (some (.prim .int)) Option.none
        (some (.vlist [.vfunc 1 (fun _ => .str "first"),
          .vfunc 1 (fun _ => .str ""), .vfunc 1 (fun _ => .str "second")]))
        Option.none []) "p" []
      = .ok [("p", .str "second")] := by
  have h := (validators_in_order_last_wins .int [] (.int 3)
      [.vfunc 1 (fun _ => .str "first"), .vfunc 1 (fun _ => .str ""),
        .vfunc 1 (fun _ => .str "second")] (fun _ => .str "")
      Option.none Option.none [] "p" [] (by simp [arity1])).1 (by rfl)
  rw [h]
  rfl

/-- C5: schema verification walks the declaration depth-first in declaration
order and stops at the first violated rule, raising a schema-format error
carrying the offending dotted path: a field spec without `type` (and a
well-formed `required`) errors with that field's path, an embedded-collection
spec declaring zero or more than one element type errors at that path, and a
field list is verified as the sequential composition of its parts, so an
error in an earlier field suppresses all later checks. -/
theorem verify_first_error_wins (v? : Option ValidatesDecl)
    (d? : Option DefaultDecl) (ex : List String) (r? : Option Value)
    (path f pfx : String) (elems : List CollElem)
    (hr : r? = Option.none ∨ ∃ b, r? = some (.bool b))
    (hlen : elems.length ≠ 1) :
    verifyFieldSpec (.mk Option.none r? v? d? ex) path
      = .error (.fmt (path ++ " has no type declared.") path) ∧
    verifyField f (.coll elems) pfx
      = .error (.fmt
          ("Exactly one type must be declared for the embedded collection at "
            ++ appendPath pfx f) (appendPath pfx f)) ∧
    (∀ (l1 l2 : DocSpec) (p : String),
      verifyFields (l1 ++ l2) p
        = verifyFields l1 p >>= fun _ => verifyFields l2 p) := by
  refine ⟨?_, ?_, verifyFields_append⟩
  · rcases hr with h | ⟨b, h⟩ <;> subst h <;>
      simp [verifyFieldSpec, Value.isBool, throw_eq, ok_bind]
  · cases elems with
    | nil => simp [verifyField, throw_eq]
    | cons e1 tl =>
        cases tl with
        | nil => simp at hlen
        | cons e2 t => simp [verifyField, throw_eq]

/-- Witness for `verify_first_error_wins` at concrete inputs, also showing
the later field is not reached once the first fails. -/
theorem verify_first_error_wins_witness :
    verifyFieldSpec (.mk Option.none Option.none Option.none Option.none [])
        "a" = .error (.fmt ("a has no type declared.") "a") ∧
    verifyField "tags" (.coll []) ""
      = .error (.fmt
          ("Exactly one type must be declared for the embedded collection at tags")
          "tags") := by
  have h := verify_first_error_wins Option.none Option.none []
    Option.none "a" "tags" "" [] (Or.inl rfl) (by simp)
  exact ⟨h.1, by simpa [appendPath] using h.2.1⟩

/-- C6: for an embedded-collection field `[pt]` with `pt` a supported
primitive, a present non-list value yields the single error "Expected a
list." at the field path with no per-element checks; a list value yields one
type-mismatch error at `field.index` for exactly the elements that are not
instances of `pt`; concretely, `tags: [basestring]` against
`{tags: ["a", 1]}` reports exactly one error, at `tags.1`. -/
theorem embedded_collection_validation (pt : PType) (f pfx : String)
    (d : List (String × Value)) (errs : Errors) :
    (∀ v, dfind d f = some v → v ≠ .none → (∀ its, v ≠ .list its) →
      validateField f (.coll [.cptype pt]) d errs pfx
        = .ok (dset errs (appendPath pfx f) (.str "Expected a list."))) ∧
    (∀ items, dfind d f = some (.list items) →
      (∀ j, j < items.length →
        dmem errs (appendPath pfx f ++ "." ++ toString j) = false) →
      (∀ j, j < items.length → ∀ k, k < items.length →
        toString j = toString k → j = k) →
      validateField f (.coll [.cptype pt]) d errs pfx
        = .ok (errs ++ itemTypeErrs pt items 0 (appendPath pfx f))) ∧
    schemaValidate [("tags", .coll [.cptype .basestring])]
        (.doc [("tags", .list [.str "a", .int 1])])
      = .error (.validation
          [("tags.1", .str "List item is of incorrect type")]) := by
  refine ⟨fun v hpres hnn hnl => ?_, fun items hpres2 hfresh hinj => ?_, ?_⟩
  · cases v with
    | none => exact absurd rfl hnn
    | list its => exact absurd rfl (hnl its)
    | bool b => simp [validateField, dgetD, hpres]
    | int n => simp [validateField, dgetD, hpres]
    | long n => simp [validateField, dgetD, hpres]
    | float q => simp [validateField, dgetD, hpres]
    | str s => simp [validateField, dgetD, hpres]
    | dt n => simp [validateField, dgetD, hpres]
    | doc dd => simp [validateField, dgetD, hpres]
  · rw [validateField]
    simp only [dgetD, hpres2]
    exact validateItems_prim pt items 0 errs (appendPath pfx f)
      (fun j _ hj => hfresh j (by omega))
      (fun j k _ hj _ hk he => hinj j (by omega) k (by omega) he)
  · simp [schemaValidate, validateInstance, validateFields, validateField,
      validateItems, dgetD, dfind, appendPath, dset, isInst]
    rfl

/-- Witness for `embedded_collection_validation` at concrete inputs. -/
theorem embedded_collection_validation_witness :
    validateField "xs" (.coll [.cptype .int]) [("xs", .str "nope")] [] ""
      = .ok [("xs", .str "Expected a list.")] ∧
    validateField "xs" (.coll [.cptype .int])
        [("xs", .list [.int 7, .str "bad"])] [] ""
      = .ok [("xs.1", .str "List item is of incorrect type")] := by
  have h := embedded_collection_validation .int "xs" ""
    [("xs", .str "nope")] []
  have h2 := embedded_collection_validation .int "xs" ""
    [("xs", .list [.int 7, .str "bad"])] []
  constructor
  · have := h.1 (.str "nope") (by simp [dfind]) (by simp) (by intro its; simp)
    simpa [appendPath, dset] using this
  · have := h2.2.1 [.int 7, .str "bad"] (by simp [dfind])
      (by decide) (by decide)
    rw [this]
    rfl

/-- C3: under the spec's data-model invariants (nested-document field specs
carry no defaults; Python dict field names are distinct), one defaulting
pass with side-effect-free defaults is idempotent — reapplying it to the
result changes nothing and invokes no generator — the pass invokes each
field's generator default exactly once per field that was absent (and not at
all for fields that already had a value), as counted by `genCountFields`,
and fields with no declared default remain absent. -/
theorem apply_defaults_idempotent (specs : DocSpec) (inst out : Value)
    (n : Nat) (htame : tameFields specs = true)
    (hdist : distinctFields specs = true)
    (h : applyDefaultsFields specs inst = .ok (out, n)) :
    applyDefaultsFields specs out = .ok (out, 0) ∧
    n = genCountFields specs inst ∧
    (∀ d f, inst = .doc d → dfind d f = Option.none →
      (∀ sp, (f, sp) ∈ specs → specHasDefault sp = false) →
      ∃ dout, out = .doc dout ∧ dfind dout f = Option.none) := by
  obtain ⟨h1, h2⟩ := adIdem_fields specs inst htame hdist out n h
  refine ⟨h1, h2, fun d f hinst hfind hnd => ?_⟩
  subst hinst
  exact adFields_absent specs d out n f h hfind hnd

/-- Witness for `apply_defaults_idempotent`: a literal default, a generator
default and a defaultless field against an empty document — one generator
invocation, a fixed point on the second pass, and the defaultless field
stays absent. -/
theorem apply_defaults_idempotent_witness :
    applyDefaultsFields
        [("n", .field (.mk (some (.prim .int)) Option.none Option.none
            (some (.dlit (.int 0))) [])),
         ("g", .field (.mk (some (.prim .int)) Option.none Option.none
            (some (.dfunc 0 (.int 7))) [])),
         ("x", .field (.mk (some (.prim .bool)) Option.none Option.none
            Option.none []))]
        (.doc [("n", .int 0), ("g", .int 7)]) = .ok
          (.doc [("n", .int 0), ("g", .int 7)], 0) ∧
    (1 : Nat) = genCountFields
        [("n", .field (.mk (some (.prim .int)) Option.none Option.none
            (some (.dlit (.int 0))) [])),
         ("g", .field (.mk (some (.prim .int)) Option.none Option.none
            (some (.dfunc 0 (.int 7))) [])),
         ("x", .field (.mk (some (.prim .bool)) Option.none Option.none
            Option.none []))]
        (.doc []) := by
  have h := apply_defaults_idempotent
    [("n", .field (.mk (some (.prim .int)) Option.none Option.none
        (some (.dlit (.int 0))) [])),
     ("g", .field (.mk (some (.prim .int)) Option.none Option.none
        (some (.dfunc 0 (.int 7))) [])),
     ("x", .field (.mk (some (.prim .bool)) Option.none Option.none
        Option.none []))]
    (.doc []) (.doc [("n", .int 0), ("g", .int 7)]) 1
    (by simp [tameFields, tameSpec])
    (by simp [distinctFields, distinctSpec])
    (by simp [applyDefaultsFields, applyDefaultsField, applyDefaultsAbsent,
        pyMem, dmem, pySetItem, dset, ok_bind, err_bind, map_ok, pure_ok])
  exact ⟨h.1, h.2.1⟩

/-- C8 counterexample: a well-formed (verified) one-field schema with an
`int` default, applied to an instance that is not a structured mapping,
makes `apply_defaults` raise a `TypeError` at the `field in instance`
membership test — the claim says it never fails. -/
theorem apply_defaults_can_raise_cex :
    schemaVerify [("a", .field (.mk (some (.prim .int)) Option.none
        Option.none (some (.dlit (.int 0))) []))] = .ok () ∧
    applyDefaultsFields [("a", .field (.mk (some (.prim .int)) Option.none
        Option.none (some (.dlit (.int 0))) []))] (.int 0)
      = .error .typeError := by
  constructor
  · simp [schemaVerify, verifyFields, verifyField, verifyFieldSpec,
      verifyValidations, appendPath, isInst, ok_bind]
  · simp [applyDefaultsFields, applyDefaultsField, pyMem, err_bind]

/-- C8 amended: `apply_defaults` can raise even under a well-formed schema
when the instance is malformed (e.g. not a mapping); it returns normally
whenever the schema's field names are distinct and the instance lies in the
safe envelope: the traversal meets only well-shaped values and every invoked
function default is zero-argument. -/
theorem apply_defaults_safe_envelope (specs : DocSpec) (inst : Value)
    (hdist : distinctFields specs = true)
    (hsafe : safeFields specs inst = true) :
    ∃ r, applyDefaultsFields specs inst = .ok r :=
  adSafe_fields specs inst hdist hsafe

/-- Witness for `apply_defaults_safe_envelope` on a nested concrete
schema and instance. -/
theorem apply_defaults_safe_envelope_witness :
    ∃ r, applyDefaultsFields
        [("n", .field (.mk (some (.prim .int)) Option.none Option.none
            (some (.dlit (.int 0))) [])),
         ("sub", .field (.mk (some (.nested [("m", .field (.mk
            (some (.prim .bool)) Option.none Option.none
            (some (.dfunc 0 (.bool true))) []))])) Option.none Option.none
            Option.none []))]
        (.doc [("sub", .doc [])]) = .ok r :=
  apply_defaults_safe_envelope _ _
    (by simp [distinctFields, distinctSpec])
    (by simp [safeFields, safeVal, dfind])

/-- C1: when the validation walk completes without a Python-level error,
`validate` returns normally exactly when the collected error map is empty and
raises a `ValidationException` carrying the full collected map otherwise;
moreover the walk over a field list is the sequential composition of the
walks over its parts threading one error collection through, so a failing
check in an earlier field never stops the checks of later fields. -/
theorem validate_collects_then_raises (specs : DocSpec) (inst : Value)
    (errs : Errors) (h : validateInstance inst specs [] "" = .ok errs) :
    (schemaValidate specs inst = .ok () ↔ errs = []) ∧
    (errs ≠ [] → schemaValidate specs inst = .error (.validation errs)) ∧
    (∀ (l1 l2 : DocSpec) (d : List (String × Value)) (e0 : Errors)
        (p : String),
      validateFields (l1 ++ l2) d e0 p
        = validateFields l1 d e0 p >>= fun e1 => validateFields l2 d e1 p) := by
  refine ⟨?_, ?_, validateFields_append⟩
  · rw [schemaValidate, h]
    cases errs <;> simp
  · intro hne
    rw [schemaValidate, h]
    cases errs with
    | nil => exact absurd rfl hne
    | cons e tl => simp

/-- Witness for `validate_collects_then_raises`: a two-field schema against
an empty document collects both failures (the second field is still checked
after the first fails) and raises them as one map. -/
theorem validate_collects_then_raises_witness :
    schemaValidate
        [("a", .field (.mk (some (.prim .int)) (some (.bool true))
            Option.none Option.none [])),
         ("b", .field (.mk (some (.prim .bool)) (some (.bool true))
            Option.none Option.none []))]
        (.doc [])
      = .error (.validation
          [("a", .str "a is required."), ("b", .str "b is required.")]) := by
  have h := validate_collects_then_raises
    [("a", .field (.mk (some (.prim .int)) (some (.bool true))
        Option.none Option.none [])),
     ("b", .field (.mk (some (.prim .bool)) (some (.bool true))
        Option.none Option.none []))]
    (.doc []) [("a", .str "a is required."), ("b", .str "b is required.")]
    (by simp [validateInstance, validateFields, validateField, validateValue,
        dgetD, dfind, reqTruthy, truthy, appendPath, dset]
        rfl)
  exact h.2.1 (by simp)

end Mongothon
